import Mathlib

/-!
Verification of the expression-migration core of the `bi` repository.

The development shallowly embeds the Python sources:

* `src/utils/expression_extractor.py` — harvester (`extract_expressions`,
  `_extract_transformable_expressions`, `_is_transformable_expression`,
  `_needs_nim_translation`), the external translator boundary
  (`NIMTranslator.translate_to_dax`) and `enhance_with_nim`;
* `src/utils/tfidf_index.py` — `TFIDFIndex.fit` / `TFIDFIndex.search`;
* `src/agents/translator_agent.py` — `translate_batch_from_list`;
* `src/PBIP_Migration(2)/PBIP_Migration/python/agents/logic_translator.py` —
  `to_dax_measure`.

External collaborators (the `json` parser, `requests`, `sklearn`, the
network provider) are modelled as explicit function parameters or as sum
types of their observable outcomes; everything of the repository itself is
translated directly from the source.
-/

/-! ## Python string helpers

Characters Python `str.strip()` removes and Python `\s` matches. -/

def isPySpace (c : Char) : Bool :=
  c == ' ' || c == '\t' || c == '\n' || c == '\r' || c == '\x0b' || c == '\x0c'

/-- Model of Python `str.strip()` on a character list. -/
def pyStrip (l : List Char) : List Char :=
  ((l.dropWhile isPySpace).reverse.dropWhile isPySpace).reverse

/-- Model of Python `str.strip()` on a `String`. -/
def pyStripStr (s : String) : String :=
  String.mk (pyStrip s.data)

/-- Model of Python `str.lower()` (inputs are ASCII in this code base). -/
def pyLower (s : String) : String :=
  String.mk (s.data.map Char.toLower)

/-- Model of Python `str.upper()` (inputs are ASCII in this code base). -/
def pyUpper (s : String) : String :=
  String.mk (s.data.map Char.toUpper)

/-- Does `needle` occur at the head of `hay`? (Model of Python prefix test.) -/
def leadMatch : List Char → List Char → Bool
  | [], _ => true
  | _ :: _, [] => false
  | a :: n, b :: h => a == b && leadMatch n h

/-- Does `needle` occur anywhere inside `hay`? Model of Python `needle in hay`
for strings (the empty needle matches). -/
def subMatch (needle : List Char) : List Char → Bool
  | [] => leadMatch needle []
  | c :: h => leadMatch needle (c :: h) || subMatch needle h

/-! ## A small regular-expression engine

The Python sources use `re.search` with a fixed set of patterns built from
literals, character classes, `*` / `+` repetition, `.` under `re.DOTALL`
and the word-boundary assertion. A pattern is a list of atoms; matching is
existential, which coincides with the backtracking semantics of `re` for
these capture-free patterns. The matcher carries explicit fuel; the
call-measure `chars + atoms` decreases at every step, so any fuel of at
least `chars + atoms + 1` computes the true answer. -/

inductive RE where
  | cls (f : Char → Bool)
  | star (f : Char → Bool)
  | wb

/-- Is an optional character a Python `\w` word character? -/
def isWordO : Option Char → Bool
  | none => false
  | some c => c.isAlphanum || c == '_'

/-- Head character of the remaining input, for the word-boundary test. -/
def headWord : List Char → Bool
  | [] => false
  | c :: _ => c.isAlphanum || c == '_'

/-- Fuel-indexed matcher: does the atom list match a prefix of the input?
`prev` is the character just before the current position (for `\b`). -/
def matchAtF : Nat → List RE → Option Char → List Char → Bool
  | 0, _, _, _ => false
  | _ + 1, [], _, _ => true
  | f + 1, RE.cls p :: ps, _, c :: cs => p c && matchAtF f ps (some c) cs
  | _ + 1, RE.cls _ :: _, _, [] => false
  | f + 1, RE.star p :: ps, prev, cs =>
      matchAtF f ps prev cs ||
        (match cs with
         | c :: cs2 => p c && matchAtF f (RE.star p :: ps) (some c) cs2
         | [] => false)
  | f + 1, RE.wb :: ps, prev, cs =>
      (isWordO prev != headWord cs) && matchAtF f ps prev cs

/-- Matcher with sufficient fuel for the given position. -/
def matchAt (ps : List RE) (prev : Option Char) (cs : List Char) : Bool :=
  matchAtF (cs.length + ps.length + 1) ps prev cs

/-- Try to match at the current position or at any later one. -/
def searchAux (ps : List RE) : Option Char → List Char → Bool
  | prev, [] => matchAt ps prev []
  | prev, c :: cs => matchAt ps prev (c :: cs) || searchAux ps (some c) cs

/-- Model of Python `re.search(pattern, s)` viewed as a Boolean. -/
def searchTop (ps : List RE) (cs : List Char) : Bool :=
  searchAux ps none cs

/-! ### Pattern-building helpers -/

/-- Case-insensitive literal (the sources compile with `re.IGNORECASE`). -/
def litCI (s : String) : List RE :=
  s.data.map (fun a => RE.cls (fun c => c.toLower == a.toLower))

/-- One-or-more repetition of a character class. -/
def plusC (f : Char → Bool) : List RE :=
  [RE.cls f, RE.star f]

/-- Zero-or-more repetition of a character class. -/
def starC (f : Char → Bool) : List RE :=
  [RE.star f]

/-- The class `[^)]`. -/
def nonRP (c : Char) : Bool := c != ')'

/-- The class `[^;]`. -/
def nonSemi (c : Char) : Bool := c != ';'

/-- The class `\s` (Python whitespace). -/
def wsC (c : Char) : Bool := isPySpace c

/-- The class `.` under `re.DOTALL`. -/
def anyC (_ : Char) : Bool := true

/-! ## `SAPBO_EXPRESSION_PATTERNS` (expression_extractor.py lines 10-24) -/

/-- The pattern with an aggregate keyword: `\bKW\s*\([^)]+\)`. -/
def aggPat (kw : String) : List RE :=
  [RE.wb] ++ litCI kw ++ starC wsC ++ litCI "(" ++ plusC nonRP ++ litCI ")"

/-- The pattern with a date keyword: `\bKW\s*\([^)]*\)`. -/
def datePat (kw : String) : List RE :=
  [RE.wb] ++ litCI kw ++ starC wsC ++ litCI "(" ++ starC nonRP ++ litCI ")"

/-- The pattern `@NAME\([^)]+\)`. -/
def atCallPat (name : String) : List RE :=
  litCI ("@" ++ name ++ "(") ++ plusC nonRP ++ litCI ")"

/-- `\bCase\s+When\s+.*\s+Then\s+.*\s+End\b`. -/
def casePatLoose : List RE :=
  [RE.wb] ++ litCI "case" ++ plusC wsC ++ litCI "when" ++ plusC wsC ++
    starC anyC ++ plusC wsC ++ litCI "then" ++ plusC wsC ++ starC anyC ++
    plusC wsC ++ litCI "end" ++ [RE.wb]

/-- `\bIf\s*\([^)]*\)\s+Then\s+[^;]*\s+Else\s+[^;]*`. -/
def ifPatStrict : List RE :=
  [RE.wb] ++ litCI "if" ++ starC wsC ++ litCI "(" ++ starC nonRP ++ litCI ")" ++
    plusC wsC ++ litCI "then" ++ plusC wsC ++ starC nonSemi ++ plusC wsC ++
    litCI "else" ++ plusC wsC ++ starC nonSemi

/-- `SAPBO_EXPRESSION_PATTERNS`, in source order. -/
def SAPBO_EXPRESSION_PATTERNS : List (List RE) :=
  [atCallPat "Select", atCallPat "Prompt", atCallPat "Aggregate_Aware",
   casePatLoose, ifPatStrict,
   aggPat "sum", aggPat "count", aggPat "avg", aggPat "min", aggPat "max",
   datePat "ytd", datePat "qtd", datePat "mtd"]

/-- `SAPBO_EXPRESSION_FIELDS` (lines 26-30). -/
def SAPBO_EXPRESSION_FIELDS : List String :=
  ["sql_definition", "where_expression", "expression",
   "formula", "calculation", "filter_expression",
   "measure", "calculated_member"]

/-- `SAPBO_OBJECT_TYPES` (lines 32-34). -/
def SAPBO_OBJECT_TYPES : List String :=
  ["dimensions", "measures", "filters", "attributes", "calculations"]

/-- `_is_transformable_expression` (lines 95-110). The `try`/`except` around
`re.search` is dead (all patterns compile); the final fallback is a
case-sensitive substring test. -/
def _is_transformable_expression (s : String) : Bool :=
  if s.data.isEmpty then false
  else
    let st := pyStrip s.data
    if st.length < 3 then false
    else if SAPBO_EXPRESSION_PATTERNS.any (fun p => searchTop p st) then true
    else ["@Select", "@Prompt", "@Aggregate_Aware"].any
      (fun f => subMatch f.data st)

/-! ## `_needs_nim_translation` (lines 151-162) -/

/-- `@Select\([^)]+\)` from `complex_patterns`. -/
def nimSelectPat : List RE := atCallPat "Select"

/-- `@Prompt\([^)]+\)` from `complex_patterns`. -/
def nimPromptPat : List RE := atCallPat "Prompt"

/-- `@Aggregate_Aware\([^)]+\)` from `complex_patterns`. -/
def nimAggAwarePat : List RE := atCallPat "Aggregate_Aware"

/-- `\bCase\s+When.*Then.*End\b` from `complex_patterns`. -/
def nimCasePat : List RE :=
  [RE.wb] ++ litCI "case" ++ plusC wsC ++ litCI "when" ++ starC anyC ++
    litCI "then" ++ starC anyC ++ litCI "end" ++ [RE.wb]

/-- `\bIf.*Then.*Else.*` from `complex_patterns`. -/
def nimIfPat : List RE :=
  [RE.wb] ++ litCI "if" ++ starC anyC ++ litCI "then" ++ starC anyC ++
    litCI "else" ++ starC anyC

/-- `\bjoin\b.*\bon\b` from `complex_patterns`. -/
def nimJoinPat : List RE :=
  [RE.wb] ++ litCI "join" ++ [RE.wb] ++ starC anyC ++ [RE.wb] ++ litCI "on" ++
    [RE.wb]

/-- The `complex_patterns` list, in source order. -/
def NIM_COMPLEX_PATTERNS : List (List RE) :=
  [nimSelectPat, nimPromptPat, nimAggAwarePat, nimCasePat, nimIfPat, nimJoinPat]

/-- `_needs_nim_translation`: search every complex pattern over the lowered
expression, otherwise fall back to the 200-character length threshold
(tested on the original expression). -/
def _needs_nim_translation (expression : String) : Bool :=
  let expression_lower := pyLower expression
  if NIM_COMPLEX_PATTERNS.any (fun p => searchTop p expression_lower.data) then
    true
  else
    decide (200 < expression.length)

/-! ## The document model and the harvester traversal

`json.loads` produces nested dictionaries, lists, strings, numbers,
Booleans and null. Python dictionaries preserve insertion order, so an
object is a list of key-value pairs. Numeric payloads are never inspected
by the traversal; they are carried as integers for concreteness. -/

inductive Json where
  | str (s : String)
  | num (n : Int)
  | bool (b : Bool)
  | null
  | arr (xs : List Json)
  | obj (fields : List (String × Json))

/-- Outcome structure returned by `NIMTranslator.translate_to_dax`
(lines 80-93): the three-key result dictionary. -/
structure NimOutcome where
  dax_translation : String
  translation_method : String
  confidence : String
deriving DecidableEq

/-- A harvested expression record (lines 131-138). The two `Option` fields
at the end model the dictionary keys that `enhance_with_nim` may add later:
`none` means the key is absent, `some none` means the key is present with
value `None`. -/
structure ExprRec where
  path : String
  text : String
  object_type : String
  object_name : Json
  field_type : String
  needs_nim : Bool
  translation_method : Option String := none
  nim_translation : Option (Option NimOutcome) := none

/-- Python `obj.get(k)` on an ordered dictionary. -/
def dictGet (fs : List (String × Json)) (k : String) : Option Json :=
  match fs.find? (fun p => p.1 == k) with
  | some p => some p.2
  | none => none

/-- `obj.get('name', obj.get('id', 'unknown'))` (line 122). -/
def objNameOf (fs : List (String × Json)) : Json :=
  match dictGet fs "name" with
  | some v => v
  | none =>
      match dictGet fs "id" with
      | some v => v
      | none => Json.str "unknown"

/-- Scan of the dotted path for an object-type folder name (lines 123-129);
Python `current_path.split('.')` is `String.splitOn "."`. -/
def objTypeOf (current_path : String) : String :=
  if current_path == "" then "unknown"
  else
    match (current_path.splitOn ".").find?
        (fun part => SAPBO_OBJECT_TYPES.contains part) with
    | some part => part
    | none => "unknown"

/-- `any(field in key_lower for field in SAPBO_EXPRESSION_FIELDS)`
(line 119). -/
def is_essential_field (key : String) : Bool :=
  SAPBO_EXPRESSION_FIELDS.any (fun f => subMatch f.data (pyLower key).data)

/-- `f"{current_path}.{key}" if current_path else key`. -/
def extendPath (current_path key : String) : String :=
  if current_path == "" then key else current_path ++ "." ++ key

/-- One record as appended at lines 131-138. `all` is the enclosing
dictionary (for the name lookup); `needs_nim` is computed on the raw,
unstripped value while `text` is stripped. -/
def mkRecord (all : List (String × Json)) (current_path key value : String) :
    ExprRec :=
  { path := extendPath current_path key
    text := pyStripStr value
    object_type := objTypeOf current_path
    object_name := objNameOf all
    field_type := key
    needs_nim := _needs_nim_translation value }

mutual

/-- `_extract_transformable_expressions` (lines 112-149), dispatch on the
node kind. The Python accumulator list is modelled by list append. -/
def extractJson : Json → String → List ExprRec
  | Json.obj fs, current_path => extractFields fs fs current_path
  | Json.arr xs, current_path => extractItems xs current_path 0
  | _, _ => []

/-- The dictionary loop (lines 117-142): an essential string field that is
transformable yields a record; nested objects and arrays recurse with the
extended path; other values are skipped. -/
def extractFields (all : List (String × Json)) :
    List (String × Json) → String → List ExprRec
  | [], _ => []
  | (key, value) :: rest, current_path =>
      (match value with
       | Json.str sv =>
           if is_essential_field key && _is_transformable_expression sv then
             [mkRecord all current_path key sv]
           else []
       | Json.obj gs => extractJson (Json.obj gs) (extendPath current_path key)
       | Json.arr xs => extractJson (Json.arr xs) (extendPath current_path key)
       | _ => []) ++
      extractFields all rest current_path

/-- The list loop (lines 144-147): recurse on each item with the indexed
path `f"{current_path}[{i}]"`. -/
def extractItems : List Json → String → Nat → List ExprRec
  | [], _, _ => []
  | x :: xs, current_path, i =>
      extractJson x (current_path ++ "[" ++ toString i ++ "]") ++
        extractItems xs current_path (i + 1)

end

/-- Top-level traversal entry: `_extract_transformable_expressions(json_data)`
with the default empty path and a fresh accumulator. -/
def _extract_transformable_expressions (j : Json) : List ExprRec :=
  extractJson j ""

/-- Membership in the `seen_texts` set (line 170), modelled as a list of the
texts inserted so far. -/
def seenHas (seen : List String) (t : String) : Bool :=
  match seen with
  | [] => false
  | s :: rest => s == t || seenHas rest t

/-- The deduplication loop of `extract_expressions` (lines 169-178): skip a
record whose text was already seen, otherwise keep it, and break right
after keeping once `len(unique_expressions) >= max_hits`. `cnt` is the
number of records kept so far. -/
def dedupCap (max_hits : Nat) : List ExprRec → List String → Nat → List ExprRec
  | [], _, _ => []
  | e :: rest, seen, cnt =>
      if seenHas seen e.text then dedupCap max_hits rest seen cnt
      else if max_hits ≤ cnt + 1 then [e]
      else e :: dedupCap max_hits rest (e.text :: seen) (cnt + 1)

/-- `extract_expressions` (lines 164-183). The `json.loads` call is the
Python standard library, modelled as a caller-supplied parser returning
`none` when it raises; the surrounding `try`/`except` turns that case into
the empty list. -/
def extract_expressions (parse : String → Option Json) (file_content : String)
    (max_hits : Nat) : List ExprRec :=
  match parse file_content with
  | none => []
  | some json_data =>
      dedupCap max_hits (_extract_transformable_expressions json_data) [] 0

/-! ## The search index (src/utils/tfidf_index.py)

The vectorizer and `cosine_similarity` are sklearn collaborators. The
fitted matrix is determined by the corpus, so the state stores the corpus
itself, and `search` receives the similarity computation as a parameter
`sim` mapping a query and the fitted corpus to one score per corpus row.
Scores are rationals; the claims about the index are order-theoretic. -/

structure TFIDFIndex where
  texts : List String
  matrix : Option (List String)

/-- `TFIDFIndex.__init__` (lines 33-36): no corpus, no matrix. -/
def TFIDFIndex.init : TFIDFIndex :=
  { texts := [], matrix := none }

/-- `TFIDFIndex.fit` (lines 38-43): an empty corpus clears the matrix,
otherwise the matrix of the corpus is stored. -/
def TFIDFIndex.fit (_idx : TFIDFIndex) (texts : List String) : TFIDFIndex :=
  if texts.isEmpty then { texts := texts, matrix := none }
  else { texts := texts, matrix := some texts }

/-- Python `enumerate` starting at `i`. -/
def enumFrom (i : Nat) : List ℚ → List (Nat × ℚ)
  | [] => []
  | x :: xs => (i, x) :: enumFrom (i + 1) xs

/-- Insertion step of a stable descending sort on the score component:
an element moves past exactly the entries with strictly larger score,
so of two equal scores the one that came first stays first. -/
def insertDesc (x : Nat × ℚ) : List (Nat × ℚ) → List (Nat × ℚ)
  | [] => [x]
  | y :: ys => if x.2 < y.2 then y :: insertDesc x ys else x :: y :: ys

/-- Model of `sorted(enumerate(sims), key=lambda x: x[1], reverse=True)`
(line 50): Python `sorted` is stable, and a stable descending sort is
computed uniquely by stable insertion sort. -/
def sortDesc : List (Nat × ℚ) → List (Nat × ℚ)
  | [] => []
  | x :: xs => insertDesc x (sortDesc xs)

/-- `TFIDFIndex.search` (lines 45-51): empty on a missing matrix, otherwise
the ranked enumeration truncated to `top_k`. -/
def TFIDFIndex.search (idx : TFIDFIndex) (sim : String → List String → List ℚ)
    (query : String) (top_k : Nat) : List (Nat × ℚ) :=
  match idx.matrix with
  | none => []
  | some corpus => (sortDesc (enumFrom 0 (sim query corpus))).take top_k

/-- Modelled from sklearn: the tf-idf vector of a query with no vocabulary
overlap (in particular of the empty query) is the zero vector, and
`cosine_similarity` of a zero vector against each corpus row is `0.0`. -/
def zeroSim : String → List String → List ℚ :=
  fun _ corpus => corpus.map (fun _ => 0)

/-! ## The external translator boundary
(`NIMTranslator.translate_to_dax`, lines 46-93)

Everything observable about `requests` is a sum of outcomes: a raised
exception (timeout or transport error), or an HTTP response with a status
code and — when the JSON body parses and has the
`choices[0].message.content` shape — that content string. Prompt
construction (lines 49-62) is pure string formatting and cannot fail. -/

inductive ProviderResponse where
  | netError
  | http (status : Nat) (content : Option String)

/-- Is this response anything other than a status-200 response with a
well-formed body? -/
def ProviderResponse.isFailure : ProviderResponse → Bool
  | ProviderResponse.netError => true
  | ProviderResponse.http s c => !(s == 200 && c.isSome)

/-- The constant failure dictionary (lines 89-93). -/
def nimFailureOutcome : NimOutcome :=
  { dax_translation := "/* Translation failed */"
    translation_method := "NIM-error"
    confidence := "low" }

/-- The code-fence stripping of lines 77-78: when the content contains
three backticks and splits into more than two parts, keep the second part
from the end, stripped. -/
def stripCodeFence (dax_code : String) : String :=
  if subMatch "```".data dax_code.data then
    let parts := dax_code.splitOn "```"
    if 2 < parts.length then pyStripStr (parts.getD (parts.length - 2) "")
    else dax_code
  else dax_code

/-- `NIMTranslator.translate_to_dax` (lines 46-93): a status-200 response
with a well-formed body yields the high-confidence dictionary; every other
outcome — exception, non-200 status, malformed body — reaches the trailing
failure dictionary, because the broad `except` swallows the exception and
the `if` falls through. The function is total: no outcome raises. -/
def translate_to_dax (resp : ProviderResponse) (_sapbo_expression : String) :
    NimOutcome :=
  match resp with
  | ProviderResponse.http 200 (some content) =>
      { dax_translation := stripCodeFence (pyStripStr content)
        translation_method := "NIM"
        confidence := "high" }
  | _ => nimFailureOutcome

/-! ## `enhance_with_nim` (lines 185-209) -/

/-- The hard-coded sentinel key of line 186. -/
def sentinelKey : String :=
  "Bearer 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"

/-- `enhance_with_nim`: an empty (falsy) or sentinel key returns the input
list unchanged; otherwise each record needing NIM gains the provider
outcome for its text and method `NIM`, and each other record gains method
`rule_based` and a `None` translation. The network is the per-text
response function `respond`; `time.sleep` has no observable effect. -/
def enhance_with_nim (respond : String → ProviderResponse)
    (expressions : List ExprRec) (api_key : String) : List ExprRec :=
  if api_key == "" || api_key == sentinelKey then expressions
  else
    expressions.map (fun expr =>
      if expr.needs_nim then
        { expr with
            nim_translation :=
              some (some (translate_to_dax (respond expr.text) expr.text))
            translation_method := some "NIM" }
      else
        { expr with
            translation_method := some "rule_based"
            nim_translation := some none })

/-! ## Batch translation (src/agents/translator_agent.py)

`translate_hybrid` lives in `core/translator_router.py`, which is not part
of the source tree; it is abstracted as a function parameter producing an
opaque payload. The `r.update` of line 12 attaches the source expression
to each payload. -/

structure HybridItem (α : Type) where
  payload : α
  source_expression : String

/-- The `{"results": results}` dictionary returned at line 14. -/
structure BatchOutput (α : Type) where
  results : List (HybridItem α)

/-- `translate_expression` (lines 5-6): delegate to the hybrid router. -/
def translate_expression {α : Type}
    (translate_hybrid : String → String → String → Bool → α)
    (expr source target : String) (prefer_nim : Bool) : α :=
  translate_hybrid expr source target prefer_nim

/-- The accumulation loop of lines 9-13. -/
def batchLoop {α : Type}
    (translate_hybrid : String → String → String → Bool → α)
    (source target : String) (prefer_nim : Bool) :
    List String → List (HybridItem α)
  | [] => []
  | e :: es =>
      { payload := translate_expression translate_hybrid e source target
          prefer_nim
        source_expression := e } ::
        batchLoop translate_hybrid source target prefer_nim es

/-- `translate_batch_from_list` (lines 8-14). -/
def translate_batch_from_list {α : Type}
    (translate_hybrid : String → String → String → Bool → α)
    (exprs : List String) (source target : String) (prefer_nim : Bool) :
    BatchOutput α :=
  { results := batchLoop translate_hybrid source target prefer_nim exprs }

/-! ## `to_dax_measure` (logic_translator.py lines 14-22) -/

/-- `AGG_MAP` (line 14). -/
def AGG_MAP : List (String × String) :=
  [("SUM", "SUM"), ("COUNT", "COUNT"), ("AVG", "AVERAGE")]

/-- The emitted measure dictionary. -/
structure DaxMeasure where
  table : String
  name : String
  expression : String
deriving DecidableEq

/-- `AGG_MAP.get(key, "SUM")`. -/
def aggMapGet (k : String) : String :=
  match AGG_MAP.find? (fun p => p.1 == k) with
  | some p => p.2
  | none => "SUM"

/-- `to_dax_measure` (lines 16-22): look the upper-cased aggregate up in
`AGG_MAP` with default `SUM` and format `agg_fn(table[source_col])`. -/
def to_dax_measure (table target agg source_col : String) : DaxMeasure :=
  { table := table
    name := target
    expression :=
      aggMapGet (pyUpper agg) ++ "(" ++ table ++ "[" ++ source_col ++ "])" }

/-! ## Auxiliary definitions used by the theorems and witnesses -/

/-- The one-record document used to exhibit the cap overrun of C3. -/
def capDoc : Json := Json.obj [("formula", Json.str "@Select")]

/-- The ordering the spec asks of `search` output: strictly larger score
first, ties broken by smaller original index first. -/
def rankedBefore (a b : Nat × ℚ) : Prop :=
  b.2 < a.2 ∨ (a.2 = b.2 ∧ a.1 < b.1)

/-- A 201-character expression, for the C7 witness. -/
def longExpr : String := String.mk (List.replicate 201 'a')

/-- A record that needs the external translator, for the C10 witness. -/
def recNeeds : ExprRec :=
  { path := "measures[0].formula", text := "@Select(T.C)",
    object_type := "unknown", object_name := Json.str "m",
    field_type := "formula", needs_nim := true }

/-- A record handled by rules alone, for the C10 witness. -/
def recRule : ExprRec :=
  { path := "dimensions[0].formula", text := "SUM(x)",
    object_type := "unknown", object_name := Json.str "d",
    field_type := "formula", needs_nim := false }


/-! ## Properties of the deduplication loop (claims C1, C3) -/

/-- The kept records form a sublist of the traversal output. -/
theorem dedupCap_sublist (mh : Nat) (xs : List ExprRec) (seen : List String)
    (cnt : Nat) : (dedupCap mh xs seen cnt).Sublist xs := by
  induction xs generalizing seen cnt with
  | nil => simp [dedupCap]
  | cons e rest ih =>
    simp only [dedupCap]
    by_cases h1 : seenHas seen e.text = true
    · rw [if_pos h1]; exact (ih seen cnt).cons e
    · rw [if_neg h1]
      by_cases h2 : mh ≤ cnt + 1
      · rw [if_pos h2]; exact (List.nil_sublist rest).cons₂ e
      · rw [if_neg h2]; exact (ih (e.text :: seen) (cnt + 1)).cons₂ e

/-- No kept record has a text that was already in the seen set. -/
theorem dedupCap_seen (mh : Nat) (xs : List ExprRec) (seen : List String)
    (cnt : Nat) :
    ∀ r ∈ dedupCap mh xs seen cnt, seenHas seen r.text = false := by
  induction xs generalizing seen cnt with
  | nil => intro r hr; simp [dedupCap] at hr
  | cons e rest ih =>
    intro r hr
    simp only [dedupCap] at hr
    by_cases h1 : seenHas seen e.text = true
    · rw [if_pos h1] at hr; exact ih seen cnt r hr
    · rw [if_neg h1] at hr
      rw [Bool.not_eq_true] at h1
      by_cases h2 : mh ≤ cnt + 1
      · rw [if_pos h2] at hr
        rw [List.mem_singleton] at hr
        subst hr; exact h1
      · rw [if_neg h2] at hr
        rcases List.mem_cons.mp hr with h | h
        · subst h; exact h1
        · have h3 := ih (e.text :: seen) (cnt + 1) r h
          simp only [seenHas, Bool.or_eq_false_iff] at h3
          exact h3.2

/-- The kept records have pairwise distinct texts. -/
theorem dedupCap_pairwise (mh : Nat) (xs : List ExprRec) (seen : List String)
    (cnt : Nat) :
    (dedupCap mh xs seen cnt).Pairwise (fun a b => a.text ≠ b.text) := by
  induction xs generalizing seen cnt with
  | nil => simp [dedupCap]
  | cons e rest ih =>
    simp only [dedupCap]
    by_cases h1 : seenHas seen e.text = true
    · rw [if_pos h1]; exact ih seen cnt
    · rw [if_neg h1]
      by_cases h2 : mh ≤ cnt + 1
      · rw [if_pos h2]; simp
      · rw [if_neg h2]
        refine List.Pairwise.cons ?_ (ih (e.text :: seen) (cnt + 1))
        intro b hb
        have h3 := dedupCap_seen mh rest (e.text :: seen) (cnt + 1) b hb
        simp only [seenHas, Bool.or_eq_false_iff] at h3
        exact fun hEq => by simp [hEq] at h3

/-- Every kept record is the first record of the traversal with its text. -/
theorem dedupCap_first (mh : Nat) (xs : List ExprRec) (seen : List String)
    (cnt : Nat) :
    ∀ r ∈ dedupCap mh xs seen cnt,
      xs.find? (fun x => x.text == r.text) = some r := by
  induction xs generalizing seen cnt with
  | nil => intro r hr; simp [dedupCap] at hr
  | cons e rest ih =>
    intro r hr
    simp only [dedupCap] at hr
    by_cases h1 : seenHas seen e.text = true
    · rw [if_pos h1] at hr
      have h3 := dedupCap_seen mh rest seen cnt r hr
      have hne : (e.text == r.text) = false := by
        rw [beq_eq_false_iff_ne]
        intro hEq
        rw [hEq] at h1
        rw [h3] at h1
        exact Bool.false_ne_true h1
      rw [List.find?_cons_of_neg _ (by simp [hne])]
      exact ih seen cnt r hr
    · rw [if_neg h1] at hr
      by_cases h2 : mh ≤ cnt + 1
      · rw [if_pos h2] at hr
        rw [List.mem_singleton] at hr
        subst hr
        exact List.find?_cons_of_pos _ (by simp)
      · rw [if_neg h2] at hr
        rcases List.mem_cons.mp hr with h | h
        · subst h
          exact List.find?_cons_of_pos _ (by simp)
        · have h3 := dedupCap_seen mh rest (e.text :: seen) (cnt + 1) r h
          simp only [seenHas, Bool.or_eq_false_iff] at h3
          rw [List.find?_cons_of_neg _ (by simp [h3.1])]
          exact ih (e.text :: seen) (cnt + 1) r h

/-- The loop keeps at most `max mh 1` records: the cap is checked only
after a record was appended, so a cap of zero still lets one through. -/
theorem dedupCap_length (mh : Nat) (xs : List ExprRec) :
    ∀ seen cnt, (dedupCap mh xs seen cnt).length + cnt ≤ max mh (cnt + 1) := by
  induction xs with
  | nil => intro seen cnt; simp [dedupCap]
  | cons e rest ih =>
    intro seen cnt
    simp only [dedupCap]
    by_cases h1 : seenHas seen e.text = true
    · rw [if_pos h1]; exact ih seen cnt
    · rw [if_neg h1]
      by_cases h2 : mh ≤ cnt + 1
      · rw [if_pos h2]; simp; omega
      · rw [if_neg h2]
        have h3 := ih (e.text :: seen) (cnt + 1)
        simp only [List.length_cons]
        omega

/-- C1: every harvested batch has pairwise-distinct `text` values, is a
sublist of the traversal output (so kept records appear in first-seen
order), and each kept record is the first record of the traversal carrying
its text — later records with an equal text are dropped, not merged. -/
theorem extract_expressions_dedup (parse : String → Option Json)
    (content : String) (mh : Nat) (j : Json)
    (hp : parse content = some j) :
    (extract_expressions parse content mh).Pairwise
        (fun a b => a.text ≠ b.text) ∧
    (extract_expressions parse content mh).Sublist
        (_extract_transformable_expressions j) ∧
    ∀ r ∈ extract_expressions parse content mh,
      (_extract_transformable_expressions j).find?
          (fun x => x.text == r.text) = some r := by
  have hout : extract_expressions parse content mh
      = dedupCap mh (_extract_transformable_expressions j) [] 0 := by
    simp [extract_expressions, hp]
  rw [hout]
  exact ⟨dedupCap_pairwise mh _ [] 0, dedupCap_sublist mh _ [] 0,
    dedupCap_first mh _ [] 0⟩

/-- Witness for C1 at a concrete document. -/
theorem extract_expressions_dedup_witness :
    ((fun _ => some (Json.obj [])) "doc" = some (Json.obj []) : Prop) ∧
    ((extract_expressions (fun _ => some (Json.obj [])) "doc" 7).Pairwise
        (fun a b => a.text ≠ b.text) ∧
    (extract_expressions (fun _ => some (Json.obj [])) "doc" 7).Sublist
        (_extract_transformable_expressions (Json.obj [])) ∧
    ∀ r ∈ extract_expressions (fun _ => some (Json.obj [])) "doc" 7,
      (_extract_transformable_expressions (Json.obj [])).find?
          (fun x => x.text == r.text) = some r) :=
  ⟨rfl, extract_expressions_dedup (fun _ => some (Json.obj [])) "doc" 7
    (Json.obj []) rfl⟩


/-- C3: `maxHits` is not a hard ceiling — there is a document and a
`maxHits` (namely zero: the cap test runs only after an append) for which
`extract_expressions` returns more than `maxHits` records; yet collection
stops as soon as the cap is reached, so the batch never exceeds
`max maxHits 1` records. -/
theorem extract_expressions_max_hits :
    (∃ (parse : String → Option Json) (content : String) (mh : Nat),
        mh < (extract_expressions parse content mh).length) ∧
    ∀ (parse : String → Option Json) (content : String) (mh : Nat),
      (extract_expressions parse content mh).length ≤ max mh 1 := by
  constructor
  · refine ⟨fun _ => some capDoc, "doc", 0, ?_⟩
    have hcond : (is_essential_field "formula" &&
        _is_transformable_expression "@Select") = true := by decide
    have htrav : _extract_transformable_expressions capDoc
        = [mkRecord [("formula", Json.str "@Select")] "" "formula" "@Select"]
        := by
      simp [_extract_transformable_expressions, capDoc, extractJson,
        extractFields, hcond]
    have hout : extract_expressions (fun _ => some capDoc) "doc" 0
        = [mkRecord [("formula", Json.str "@Select")] "" "formula" "@Select"]
        := by
      simp [extract_expressions, htrav, dedupCap, seenHas]
    rw [hout]
    simp
  · intro parse content mh
    cases hp : parse content with
    | none => simp [extract_expressions, hp]
    | some j =>
        have hout : extract_expressions parse content mh
            = dedupCap mh (_extract_transformable_expressions j) [] 0 := by
          simp [extract_expressions, hp]
        rw [hout]
        have := dedupCap_length mh (_extract_transformable_expressions j) [] 0
        omega

/-- C4: when the document does not parse as structured data, the harvester
returns the empty list for any `maxHits`; the embedding is a total
function, so nothing propagates past the boundary. -/
theorem extract_expressions_parse_failure (parse : String → Option Json)
    (file_content : String) (mh : Nat) (hp : parse file_content = none) :
    extract_expressions parse file_content mh = [] := by
  simp [extract_expressions, hp]

/-- Witness for C4 at a concrete unparseable input. -/
theorem extract_expressions_parse_failure_witness :
    ((fun (_ : String) => (none : Option Json)) "not json" = none : Prop) ∧
    extract_expressions (fun _ => none) "not json" 1000 = [] :=
  ⟨rfl, extract_expressions_parse_failure (fun _ => none) "not json" 1000 rfl⟩

/-! ## Properties of the ranking (claims C2, C6) -/


/-- Membership through the insertion step. -/
theorem mem_insertDesc (x z : Nat × ℚ) (l : List (Nat × ℚ)) :
    z ∈ insertDesc x l ↔ z = x ∨ z ∈ l := by
  induction l with
  | nil => simp [insertDesc]
  | cons y ys ih =>
    simp only [insertDesc]
    by_cases h : x.2 < y.2
    · rw [if_pos h]
      simp only [List.mem_cons, ih]
      tauto
    · rw [if_neg h]
      simp [List.mem_cons]

/-- Membership through the sort. -/
theorem mem_sortDesc (z : Nat × ℚ) (l : List (Nat × ℚ)) :
    z ∈ sortDesc l ↔ z ∈ l := by
  induction l with
  | nil => simp [sortDesc]
  | cons y ys ih =>
    simp only [sortDesc, mem_insertDesc, List.mem_cons, ih]

/-- Inserting an element whose index is below every index present
preserves the ranking order. -/
theorem pairwise_insertDesc (x : Nat × ℚ) (l : List (Nat × ℚ))
    (hl : l.Pairwise rankedBefore) (hidx : ∀ y ∈ l, x.1 < y.1) :
    (insertDesc x l).Pairwise rankedBefore := by
  induction l with
  | nil => simp [insertDesc, List.pairwise_singleton]
  | cons y ys ih =>
    rw [List.pairwise_cons] at hl
    simp only [insertDesc]
    by_cases h : x.2 < y.2
    · rw [if_pos h]
      refine List.Pairwise.cons ?_ ?_
      · intro z hz
        rcases (mem_insertDesc x z ys).mp hz with rfl | hz2
        · exact Or.inl h
        · exact hl.1 z hz2
      · exact ih hl.2 (fun y hy => hidx y (List.mem_cons_of_mem _ hy))
    · rw [if_neg h]
      push_neg at h
      refine List.Pairwise.cons ?_ (List.Pairwise.cons hl.1 hl.2)
      intro z hz
      rcases List.mem_cons.mp hz with rfl | hz2
      · rcases lt_or_eq_of_le h with hlt | hEq
        · exact Or.inl hlt
        · exact Or.inr ⟨hEq.symm, hidx z (List.mem_cons_self _ _)⟩
      · have hzy := hl.1 z hz2
        have hz2x : z.2 ≤ x.2 := by
          rcases hzy with hlt | ⟨hEq, _⟩
          · exact le_trans (le_of_lt hlt) h
          · exact hEq ▸ h
        rcases lt_or_eq_of_le hz2x with hlt | hEq
        · exact Or.inl hlt
        · exact Or.inr ⟨hEq.symm, hidx z (List.mem_cons_of_mem _ hz2)⟩

/-- A stable insertion sort of an index-increasing list is ranked. -/
theorem pairwise_sortDesc (l : List (Nat × ℚ))
    (hl : l.Pairwise (fun a b => a.1 < b.1)) :
    (sortDesc l).Pairwise rankedBefore := by
  induction l with
  | nil => simp [sortDesc]
  | cons x xs ih =>
    rw [List.pairwise_cons] at hl
    simp only [sortDesc]
    refine pairwise_insertDesc x (sortDesc xs) (ih hl.2) ?_
    intro y hy
    exact hl.1 y ((mem_sortDesc y xs).mp hy)

/-- Indices produced by the enumeration are at least the start index. -/
theorem mem_enumFrom_le (i : Nat) (l : List ℚ) :
    ∀ z ∈ enumFrom i l, i ≤ z.1 := by
  induction l generalizing i with
  | nil => intro z hz; simp [enumFrom] at hz
  | cons x xs ih =>
    intro z hz
    simp only [enumFrom, List.mem_cons] at hz
    rcases hz with rfl | hz
    · exact le_refl i
    · exact le_trans (Nat.le_succ i) (ih (i + 1) z hz)

/-- The enumeration is strictly increasing in the index component. -/
theorem pairwise_enumFrom (i : Nat) (l : List ℚ) :
    (enumFrom i l).Pairwise (fun a b => a.1 < b.1) := by
  induction l generalizing i with
  | nil => simp [enumFrom]
  | cons x xs ih =>
    simp only [enumFrom]
    refine List.Pairwise.cons ?_ (ih (i + 1))
    intro z hz
    exact lt_of_lt_of_le (Nat.lt_succ_self i) (mem_enumFrom_le (i + 1) xs z hz)

/-- Insertion grows the length by one. -/
theorem length_insertDesc (x : Nat × ℚ) (l : List (Nat × ℚ)) :
    (insertDesc x l).length = l.length + 1 := by
  induction l with
  | nil => simp [insertDesc]
  | cons y ys ih =>
    simp only [insertDesc]
    by_cases h : x.2 < y.2
    · rw [if_pos h]; simp [ih]
    · rw [if_neg h]; simp

/-- Sorting preserves the length. -/
theorem length_sortDesc (l : List (Nat × ℚ)) :
    (sortDesc l).length = l.length := by
  induction l with
  | nil => simp [sortDesc]
  | cons x xs ih => simp [sortDesc, length_insertDesc, ih]

/-- Enumeration preserves the length. -/
theorem length_enumFrom (i : Nat) (l : List ℚ) :
    (enumFrom i l).length = l.length := by
  induction l generalizing i with
  | nil => simp [enumFrom]
  | cons x xs ih => simp [enumFrom, ih]

/-- C2 counterexample: on a non-empty fitted corpus, a search with the
empty query string does not return an empty result — it returns the whole
corpus ranked with zero scores (truncated to `topK`). -/
theorem search_empty_query_counterexample :
    (TFIDFIndex.init.fit ["doc"]).search zeroSim "" 5 = [(0, 0)] ∧
    (TFIDFIndex.init.fit ["doc"]).search zeroSim "" 5 ≠ [] := by
  constructor
  · rfl
  · intro h
    simp [TFIDFIndex.init, TFIDFIndex.fit, TFIDFIndex.search, zeroSim,
      enumFrom, sortDesc, insertDesc] at h

/-- C2 as amended: `search` on an empty-fitted index returns the empty
list for every query and `topK`; `search` with any query — the empty one
included — never errors and returns exactly `min topK corpusSize` entries,
which is the empty list only when the corpus is empty or `topK` is zero. -/
theorem search_empty_cases :
    (∀ (sim : String → List String → List ℚ) (q : String) (k : Nat),
        (TFIDFIndex.init.fit []).search sim q k = []) ∧
    ∀ (corpus : List String) (sim : String → List String → List ℚ)
        (q : String) (k : Nat),
      (sim q corpus).length = corpus.length →
      ((TFIDFIndex.init.fit corpus).search sim q k).length
        = min k corpus.length := by
  constructor
  · intro sim q k
    simp [TFIDFIndex.init, TFIDFIndex.fit, TFIDFIndex.search]
  · intro corpus sim q k hlen
    cases corpus with
    | nil => simp [TFIDFIndex.init, TFIDFIndex.fit, TFIDFIndex.search]
    | cons t ts =>
        have hmat : (TFIDFIndex.init.fit (t :: ts)).matrix
            = some (t :: ts) := by
          simp [TFIDFIndex.init, TFIDFIndex.fit]
        rw [TFIDFIndex.search, hmat]
        rw [List.length_take, length_sortDesc, length_enumFrom, hlen]

/-- Witness for the amended C2 at a concrete corpus and query. -/
theorem search_empty_cases_witness :
    (zeroSim "" ["a"]).length = (["a"] : List String).length ∧
    ((TFIDFIndex.init.fit ["a"]).search zeroSim "" 2).length
      = min 2 (["a"] : List String).length :=
  ⟨rfl, search_empty_cases.2 ["a"] zeroSim "" 2 rfl⟩

/-- C6: on a non-empty fitted corpus, `search` returns a list ordered
descending by score with ties broken by ascending original index, and at
most `min topK corpusSize` entries. -/
theorem search_ranked (corpus : List String)
    (sim : String → List String → List ℚ) (query : String) (top_k : Nat)
    (hne : corpus ≠ [])
    (hlen : (sim query corpus).length = corpus.length) :
    ((TFIDFIndex.init.fit corpus).search sim query top_k).Pairwise
        rankedBefore ∧
    ((TFIDFIndex.init.fit corpus).search sim query top_k).length
        ≤ min top_k corpus.length := by
  have hmat : (TFIDFIndex.init.fit corpus).matrix = some corpus := by
    simp [TFIDFIndex.init, TFIDFIndex.fit, List.isEmpty_iff, hne]
  constructor
  · rw [TFIDFIndex.search, hmat]
    refine List.Pairwise.sublist (List.take_sublist _ _) ?_
    exact pairwise_sortDesc _ (pairwise_enumFrom 0 _)
  · rw [TFIDFIndex.search, hmat]
    rw [List.length_take, length_sortDesc, length_enumFrom, hlen]

/-- Witness for C6 at a concrete corpus, query and cutoff. -/
theorem search_ranked_witness :
    ((["a", "b"] : List String) ≠ [] ∧
      (zeroSim "" ["a", "b"]).length = (["a", "b"] : List String).length) ∧
    (((TFIDFIndex.init.fit ["a", "b"]).search zeroSim "" 3).Pairwise
        rankedBefore ∧
      ((TFIDFIndex.init.fit ["a", "b"]).search zeroSim "" 3).length
        ≤ min 3 (["a", "b"] : List String).length) :=
  ⟨⟨by simp, rfl⟩, search_ranked ["a", "b"] zeroSim "" 3 (by simp) rfl⟩

/-! ## The translator boundary, classification, batch and measure claims -/

/-- C5: every failing provider interaction — raised exception, non-200
status, or a 200 response whose body lacks the expected shape — is turned
into the recorded failure dictionary, and every interaction at all yields
one of the two result dictionaries; the embedding is a total function, so
`translate_to_dax` never raises. -/
theorem translate_to_dax_boundary (resp : ProviderResponse) (e : String) :
    (resp.isFailure = true → translate_to_dax resp e = nimFailureOutcome) ∧
    (translate_to_dax resp e = nimFailureOutcome ∨
      (translate_to_dax resp e).translation_method = "NIM") := by
  constructor
  · intro hf
    unfold translate_to_dax
    split
    · simp [ProviderResponse.isFailure] at hf
    · rfl
  · unfold translate_to_dax
    split
    · right; rfl
    · left; rfl

/-- Witness for C5 at a concrete transport failure. -/
theorem translate_to_dax_boundary_witness :
    ProviderResponse.netError.isFailure = true ∧
    translate_to_dax ProviderResponse.netError "@Select(a)"
      = nimFailureOutcome :=
  ⟨rfl, (translate_to_dax_boundary ProviderResponse.netError "@Select(a)").1
    rfl⟩

/-- C7: the `needs_nim` flag holds exactly when one of the six strict
signatures fires on the lowered raw value or the value is longer than 200
characters; in particular every expression longer than 200 characters is
flagged. -/
theorem needs_nim_iff (e : String) :
    (_needs_nim_translation e = true ↔
      (searchTop nimSelectPat (pyLower e).data = true ∨
       searchTop nimPromptPat (pyLower e).data = true ∨
       searchTop nimAggAwarePat (pyLower e).data = true ∨
       searchTop nimCasePat (pyLower e).data = true ∨
       searchTop nimIfPat (pyLower e).data = true ∨
       searchTop nimJoinPat (pyLower e).data = true ∨
       200 < e.length)) ∧
    (200 < e.length → _needs_nim_translation e = true) := by
  have main : _needs_nim_translation e = true ↔
      (searchTop nimSelectPat (pyLower e).data = true ∨
       searchTop nimPromptPat (pyLower e).data = true ∨
       searchTop nimAggAwarePat (pyLower e).data = true ∨
       searchTop nimCasePat (pyLower e).data = true ∨
       searchTop nimIfPat (pyLower e).data = true ∨
       searchTop nimJoinPat (pyLower e).data = true ∨
       200 < e.length) := by
    unfold _needs_nim_translation
    by_cases h : NIM_COMPLEX_PATTERNS.any
        (fun p => searchTop p (pyLower e).data) = true
    · rw [if_pos h]
      simp only [NIM_COMPLEX_PATTERNS, List.any_cons, List.any_nil,
        Bool.or_eq_true, Bool.or_false] at h
      simp only [true_iff]
      tauto
    · rw [if_neg h]
      simp only [NIM_COMPLEX_PATTERNS, List.any_cons, List.any_nil,
        Bool.or_eq_true, Bool.or_false, not_or] at h
      simp only [decide_eq_true_eq]
      constructor
      · intro hlen; tauto
      · intro hor; tauto
  exact ⟨main, fun hlen => main.mpr (by tauto)⟩


/-- Witness for C7: the over-length expression is flagged. -/
theorem needs_nim_iff_witness :
    200 < longExpr.length ∧ _needs_nim_translation longExpr = true := by
  have hlen : longExpr.length = 201 := List.length_replicate 201 'a'
  exact ⟨by rw [hlen]; omega, (needs_nim_iff longExpr).2 (by rw [hlen]; omega)⟩

/-- Each batch entry is the hybrid payload of the matching input, tagged
with that input as its source expression. -/
theorem batchLoop_get {α : Type}
    (translate_hybrid : String → String → String → Bool → α)
    (source target : String) (prefer_nim : Bool) :
    ∀ (exprs : List String) (i : Nat),
      (batchLoop translate_hybrid source target prefer_nim exprs).get? i =
        (exprs.get? i).map (fun e =>
          { payload := translate_hybrid e source target prefer_nim
            source_expression := e }) := by
  intro exprs
  induction exprs with
  | nil => intro i; simp [batchLoop]
  | cons e es ih =>
    intro i
    cases i with
    | zero => simp [batchLoop, translate_expression]
    | succ n => simp only [batchLoop, List.get?]; exact ih n

/-- C8: the batch result has exactly one entry per input expression, in
input order; entry `i` carries the `i`-th input as `source_expression` and
the hybrid translation applied to that input alone as payload. -/
theorem translate_batch_from_list_spec {α : Type}
    (translate_hybrid : String → String → String → Bool → α)
    (exprs : List String) (source target : String) (prefer_nim : Bool) :
    (translate_batch_from_list translate_hybrid exprs source target
        prefer_nim).results.length = exprs.length ∧
    (∀ i : Nat,
      ((translate_batch_from_list translate_hybrid exprs source target
          prefer_nim).results.get? i).map (fun r => r.source_expression)
        = exprs.get? i) ∧
    (∀ i : Nat,
      ((translate_batch_from_list translate_hybrid exprs source target
          prefer_nim).results.get? i).map (fun r => r.payload)
        = (exprs.get? i).map
            (fun e => translate_hybrid e source target prefer_nim)) := by
  refine ⟨?_, ?_, ?_⟩
  · show (batchLoop translate_hybrid source target prefer_nim exprs).length
        = exprs.length
    induction exprs with
    | nil => rfl
    | cons e es ih => simp [batchLoop, ih]
  · intro i
    show ((batchLoop translate_hybrid source target prefer_nim exprs).get?
        i).map _ = _
    rw [batchLoop_get]
    cases exprs.get? i <;> rfl
  · intro i
    show ((batchLoop translate_hybrid source target prefer_nim exprs).get?
        i).map _ = _
    rw [batchLoop_get]
    cases exprs.get? i <;> rfl

/-- The `AGG_MAP` lookup with default, spelled out. -/
theorem aggMapGet_cases (u : String) :
    aggMapGet u =
      if u = "SUM" then "SUM"
      else if u = "COUNT" then "COUNT"
      else if u = "AVG" then "AVERAGE"
      else "SUM" := by
  by_cases h1 : u = "SUM"
  · subst h1; rfl
  · by_cases h2 : u = "COUNT"
    · subst h2; rfl
    · by_cases h3 : u = "AVG"
      · subst h3; rfl
      · have n1 : (("SUM" : String) == u) = false := by
          rw [beq_eq_false_iff_ne]; exact fun hh => h1 hh.symm
        have n2 : (("COUNT" : String) == u) = false := by
          rw [beq_eq_false_iff_ne]; exact fun hh => h2 hh.symm
        have n3 : (("AVG" : String) == u) = false := by
          rw [beq_eq_false_iff_ne]; exact fun hh => h3 hh.symm
        simp [aggMapGet, AGG_MAP, List.find?, n1, n2, n3, h1, h2, h3]

/-- C9: the measure keeps its table and target name, and its expression is
`AGG(table[column])` where `AGG` is the fixed mapping of the upper-cased
aggregate name — `Sum` to `SUM`, `Count` to `COUNT`, `Avg` to `AVERAGE` —
defaulting to `SUM` for every other aggregate name. -/
theorem to_dax_measure_spec (table target agg source_col : String) :
    (to_dax_measure table target agg source_col).table = table ∧
    (to_dax_measure table target agg source_col).name = target ∧
    (to_dax_measure table target agg source_col).expression =
      (if pyUpper agg = "SUM" then "SUM"
       else if pyUpper agg = "COUNT" then "COUNT"
       else if pyUpper agg = "AVG" then "AVERAGE"
       else "SUM") ++ "(" ++ table ++ "[" ++ source_col ++ "])" := by
  refine ⟨rfl, rfl, ?_⟩
  show aggMapGet (pyUpper agg) ++ "(" ++ table ++ "[" ++ source_col ++ "])"
      = _
  rw [aggMapGet_cases]

/-- C10: with a falsy or sentinel key the input records come back
unchanged — no record gains the enhancement fields; with any other key
every output record carries method `NIM` or `rule_based`, and its
translation entry is present-but-`None` exactly when the record does not
need NIM. -/
theorem enhance_with_nim_spec (respond : String → ProviderResponse)
    (expressions : List ExprRec) (api_key : String) :
    ((api_key = "" ∨ api_key = sentinelKey) →
        enhance_with_nim respond expressions api_key = expressions) ∧
    (api_key ≠ "" → api_key ≠ sentinelKey →
      ∀ r ∈ enhance_with_nim respond expressions api_key,
        (r.translation_method = some "NIM" ∨
          r.translation_method = some "rule_based") ∧
        (r.nim_translation = some none ↔ r.needs_nim = false)) := by
  constructor
  · intro h
    unfold enhance_with_nim
    rcases h with h | h <;> simp [h]
  · intro h1 h2 r hr
    unfold enhance_with_nim at hr
    rw [if_neg (by simp [h1, h2])] at hr
    rcases List.mem_map.mp hr with ⟨e, _, rfl⟩
    by_cases hn : e.needs_nim = true
    · simp [hn]
    · rw [Bool.not_eq_true] at hn
      simp [hn]



/-- Witness for C10 with a real (non-sentinel) key and one record of each
kind. -/
theorem enhance_with_nim_spec_witness :
    ("key" : String) ≠ "" ∧ ("key" : String) ≠ sentinelKey ∧
    ∀ r ∈ enhance_with_nim (fun _ => ProviderResponse.netError)
        [recNeeds, recRule] "key",
      (r.translation_method = some "NIM" ∨
        r.translation_method = some "rule_based") ∧
      (r.nim_translation = some none ↔ r.needs_nim = false) :=
  ⟨by decide, by decide,
    (enhance_with_nim_spec (fun _ => ProviderResponse.netError)
      [recNeeds, recRule] "key").2 (by decide) (by decide)⟩
